import Mathlib

/-!
Verification of the vstore replicated state machine (package `vfs`).

This file gives a shallow embedding of the core data model and operations of
the vstore application: the transaction codec and hash (`tx.go`), the
per-signer Merkle accumulator and application state (`crypto.go` / state),
and the ABCI lifecycle operations (`app.go`: CheckTx, FinalizeBlock, Commit).

Byte strings are modelled as `List Nat` with every element below 256.
SHA-256 is implemented executably (FIPS 180-4) over such byte lists, so that
hashes can be evaluated on concrete inputs by kernel reduction.
The CometBFT binary Merkle tree (RFC-6962 style, leaf prefix `0x00`,
inner prefix `0x01`) is implemented following
`cometbft/crypto/merkle.HashFromByteSlices`.

Ed25519 signature verification and the protobuf wire codec are external
library boundaries: they are represented by a verification oracle parameter
and by the decoded message structure respectively, as documented at the
relevant definitions.
-/

set_option maxRecDepth 100000

namespace VStore

/-- Byte strings: lists of naturals, each below 256 where relevant. -/
abbrev Bytes := List Nat

/-- Big-endian 8-byte encoding of a 64-bit value, as produced by Go
`binary.BigEndian.PutUint64`. -/
def be64 (n : Nat) : Bytes :=
  [(n >>> 56) % 256, (n >>> 48) % 256, (n >>> 40) % 256, (n >>> 32) % 256,
   (n >>> 24) % 256, (n >>> 16) % 256, (n >>> 8) % 256, n % 256]

/-- Go conversion `uint64(i)` of a signed 64-bit value: two's complement,
i.e. the representative of `i` modulo `2 ^ 64`. -/
def uint64OfInt (i : Int) : Nat :=
  (i % ((2 : Int) ^ 64)).toNat

/-- UTF-8 bytes of a string (all strings used here are ASCII, so this is the
plain code-point list). -/
def strBytes (s : String) : Bytes :=
  s.data.map Char.toNat

/-! ### SHA-256 (FIPS 180-4), executable over byte lists

This models Go `crypto/sha256` as used through
`cometbft/crypto/tmhash.Sum`. 32-bit words are naturals reduced modulo
`2 ^ 32` wherever overflow matters. -/

/-- Addition of 32-bit words modulo `2 ^ 32`. -/
def add32 (a b : Nat) : Nat := (a + b) % 4294967296

/-- Right rotation of a 32-bit word (input assumed below `2 ^ 32`). -/
def rotr32 (n x : Nat) : Nat :=
  (x >>> n) ||| ((x <<< (32 - n)) % 4294967296)

/-- Bitwise complement of a 32-bit word. -/
def not32 (x : Nat) : Nat := 4294967295 ^^^ x

/-- SHA-256 round constants (FIPS 180-4 section 4.2.2, written in
decimal). -/
def shaK : List Nat :=
  [1116352408, 1899447441, 3049323471, 3921009573, 961987163,
   1508970993, 2453635748, 2870763221, 3624381080, 310598401,
   607225278, 1426881987, 1925078388, 2162078206, 2614888103,
   3248222580, 3835390401, 4022224774, 264347078, 604807628,
   770255983, 1249150122, 1555081692, 1996064986, 2554220882,
   2821834349, 2952996808, 3210313671, 3336571891, 3584528711,
   113926993, 338241895, 666307205, 773529912, 1294757372,
   1396182291, 1695183700, 1986661051, 2177026350, 2456956037,
   2730485921, 2820302411, 3259730800, 3345764771, 3516065817,
   3600352804, 4094571909, 275423344, 430227734, 506948616,
   659060556, 883997877, 958139571, 1322822218, 1537002063,
   1747873779, 1955562222, 2024104815, 2227730452, 2361852424,
   2428436474, 2756734187, 3204031479, 3329325298]

/-- SHA-256 initial hash values (FIPS 180-4 section 5.3.3, written in
decimal). -/
def shaH0 : List Nat :=
  [1779033703, 3144134277, 1013904242, 2773480762,
   1359893119, 2600822924, 528734635, 1541459225]

/-- Message padding: append `0x80`, zero bytes, and the 64-bit big-endian
bit length, so the total length is a multiple of 64 bytes. -/
def sha256Pad (msg : Bytes) : Bytes :=
  let len := msg.length
  let zeros := (119 - len % 64) % 64
  msg ++ [0x80] ++ List.replicate zeros 0 ++ be64 (8 * len)

/-- Group bytes into big-endian 32-bit words (input length is a multiple
of four). -/
def toWords : Bytes → List Nat
  | a :: b :: c :: d :: rest =>
      ((a <<< 24) ||| (b <<< 16) ||| (c <<< 8) ||| d) :: toWords rest
  | _ => []

/-- Group a word list into 16-word blocks (input length is a multiple
of sixteen). -/
def chunks16 : List Nat → List (List Nat)
  | w0 :: w1 :: w2 :: w3 :: w4 :: w5 :: w6 :: w7 ::
    w8 :: w9 :: w10 :: w11 :: w12 :: w13 :: w14 :: w15 :: rest =>
      [w0, w1, w2, w3, w4, w5, w6, w7, w8, w9, w10, w11, w12, w13, w14, w15]
        :: chunks16 rest
  | _ => []

/-- One extension step of the message schedule: appends word `w[i]` for
`i = length w`. -/
def scheduleStep (w : List Nat) : List Nat :=
  let i := w.length
  let x15 := w.getD (i - 15) 0
  let x2 := w.getD (i - 2) 0
  let s0 := (rotr32 7 x15) ^^^ (rotr32 18 x15) ^^^ (x15 >>> 3)
  let s1 := (rotr32 17 x2) ^^^ (rotr32 19 x2) ^^^ (x2 >>> 10)
  w ++ [add32 (add32 (w.getD (i - 16) 0) s0) (add32 (w.getD (i - 7) 0) s1)]

/-- Message schedule: the 16 block words extended to 64 words. -/
def msgSchedule (block : List Nat) : List Nat :=
  (List.range 48).foldl (fun w _ => scheduleStep w) block

/-- One round of the SHA-256 compression function on the eight-word working
state. -/
def shaRound (st : List Nat) (k w : Nat) : List Nat :=
  match st with
  | [a, b, c, d, e, f, g, h] =>
      let s1 := (rotr32 6 e) ^^^ (rotr32 11 e) ^^^ (rotr32 25 e)
      let ch := (e &&& f) ^^^ ((not32 e) &&& g)
      let t1 := add32 (add32 (add32 h s1) (add32 ch k)) w
      let s0 := (rotr32 2 a) ^^^ (rotr32 13 a) ^^^ (rotr32 22 a)
      let mj := (a &&& b) ^^^ (a &&& c) ^^^ (b &&& c)
      let t2 := add32 s0 mj
      [add32 t1 t2, a, b, c, add32 d t1, e, f, g]
  | other => other

/-- Compression of a single block into the running hash state. -/
def shaCompress (hs : List Nat) (block : List Nat) : List Nat :=
  let w := msgSchedule block
  let final := (shaK.zip w).foldl (fun st kw => shaRound st kw.1 kw.2) hs
  List.zipWith add32 hs final

/-- Big-endian 4-byte encoding of a 32-bit word. -/
def be32 (n : Nat) : Bytes :=
  [(n >>> 24) % 256, (n >>> 16) % 256, (n >>> 8) % 256, n % 256]

/-- SHA-256 digest of a byte string. -/
def sha256 (msg : Bytes) : Bytes :=
  let blocks := chunks16 (toWords (sha256Pad msg))
  let hs := blocks.foldl shaCompress shaH0
  (hs.map be32).flatten

/-- Sanity anchor: the model reproduces the FIPS 180-4 digest of the empty
message. -/
theorem sha256_vector_empty : sha256 [] =
    [0xe3, 0xb0, 0xc4, 0x42, 0x98, 0xfc, 0x1c, 0x14, 0x9a, 0xfb, 0xf4, 0xc8,
     0x99, 0x6f, 0xb9, 0x24, 0x27, 0xae, 0x41, 0xe4, 0x64, 0x9b, 0x93, 0x4c,
     0xa4, 0x95, 0x99, 0x1b, 0x78, 0x52, 0xb8, 0x55] := by decide

/-- Sanity anchor: the model reproduces the FIPS 180-4 digest of the
three-byte message `abc`. -/
theorem sha256_vector_abc : sha256 [0x61, 0x62, 0x63] =
    [0xba, 0x78, 0x16, 0xbf, 0x8f, 0x01, 0xcf, 0xea, 0x41, 0x41, 0x40, 0xde,
     0x5d, 0xae, 0x22, 0x23, 0xb0, 0x03, 0x61, 0xa3, 0x96, 0x17, 0x7a, 0x9c,
     0xb4, 0x10, 0xff, 0x61, 0xf2, 0x00, 0x15, 0xad] := by decide

/-! ### CometBFT binary Merkle tree

Follows `cometbft/crypto/merkle.HashFromByteSlices` (RFC 6962 style):
leaf prefix `0x00`, inner prefix `0x01`, split at the largest power of two
strictly below the item count, and the empty tree hashes to
`SHA-256` of the empty string. -/

/-- Leaf hash: `SHA256(0x00 ‖ leaf)`. -/
def leafHash (bz : Bytes) : Bytes := sha256 (0 :: bz)

/-- Inner hash: `SHA256(0x01 ‖ left ‖ right)`. -/
def innerHash (l r : Bytes) : Bytes := sha256 (1 :: (l ++ r))

/-- Number of halvings needed to reach zero, with a structural recursion
budget (the budget `n` always suffices). -/
def bitLenAux : Nat → Nat → Nat
  | _, 0 => 0
  | 0, _ => 0
  | fuel + 1, n => bitLenAux fuel (n / 2) + 1

/-- Bit length of a natural number, Go `bits.Len`. -/
def bitLen (n : Nat) : Nat := bitLenAux n n

/-- Split point of the CometBFT Merkle tree, as in `merkle.getSplitPoint`:
`k = 1 <<< (bits.Len(n) - 1)`, halved when it equals `n`; i.e. the largest
power of two strictly below `n` (for `n ≥ 2`). -/
def getSplitPoint (n : Nat) : Nat :=
  let k := 2 ^ (bitLen n - 1)
  if k = n then k / 2 else k

/-- Recursive Merkle hash with an explicit recursion budget; the budget is
always sufficient when it is at least the list length, since each recursive
call strictly shrinks the list. A fuel parameter is used instead of
well-founded recursion so that the function reduces in the kernel. -/
def hashAux : Nat → List Bytes → Bytes
  | _, [] => sha256 []
  | _, [x] => leafHash x
  | 0, _ => []
  | fuel + 1, items =>
      let k := getSplitPoint items.length
      innerHash (hashAux fuel (items.take k)) (hashAux fuel (items.drop k))

/-- CometBFT `merkle.HashFromByteSlices`. -/
def hashFromByteSlices (items : List Bytes) : Bytes :=
  hashAux items.length items

/-- Sanity anchor: the two-leaf Merkle tree is the inner hash of the two
leaf hashes. -/
theorem hashFromByteSlices_two_leaves : hashFromByteSlices [[0xaa], [0xbb]] =
    innerHash (leafHash [0xaa]) (leafHash [0xbb]) := by decide

/-! ### Signed transactions (`tx.go`, canonical variant)

The struct `SignedTransaction` mirrors the Go struct field for field.
Go `time.Time` is modelled by its Unix seconds and a sub-second nanosecond
component; `Time.Unix()` returns the seconds. -/

/-- Timestamp with whole seconds and a sub-second nanosecond component,
modelling Go `time.Time` as far as the code observes it. -/
structure Timestamp where
  sec : Int
  nsec : Nat
deriving DecidableEq, Repr

/-- The `SignedTransaction` record: signer public key (32 bytes), hash,
signature, declared size (`Size`, from the wire `Len` field), timestamp,
and body (`Data`). -/
structure SignedTransaction where
  signer : Bytes
  hash : Bytes
  signature : Bytes
  size : Nat
  time : Timestamp
  data : Bytes
deriving DecidableEq, Repr

/-- Uppercase hexadecimal digit. -/
def hexDigit (n : Nat) : Char :=
  ("0123456789ABCDEF".data).getD n (Char.ofNat 48)

/-- Uppercase hexadecimal encoding of a byte string, as produced by Go
`strings.ToUpper(hex.EncodeToString(...))`. -/
def hexUpper (bs : Bytes) : String :=
  String.mk (bs.foldr (fun b acc => hexDigit (b / 16) :: hexDigit (b % 16) :: acc) [])

/-- Map key of a signer, `SignedTransaction.PublicKey()`: the uppercase hex
of the signer public key. -/
def SignedTransaction.publicKey (p : SignedTransaction) : String :=
  hexUpper p.signer

/-- Transaction hash, `ComputeHash`: SHA-256 of the signer public key,
the body bytes, and the big-endian 8-byte two's-complement encoding of the
timestamp's whole-second Unix value (`uint64(p.Time.Unix())`). Sub-second
components are never read. -/
def computeHash (p : SignedTransaction) : Bytes :=
  let tzb := be64 (uint64OfInt p.time.sec)
  sha256 (p.signer ++ p.data ++ tzb)

/-! ### Protobuf codec layer (`ToProto` / `FromProto`)

The wire format is the protobuf `vfsp2p.Transaction` message; the canonical
proto byte encoding and its parser are the gogoproto library boundary
(`proto.Marshal` / `proto.Unmarshal` are mutually inverse on well-formed
messages), so the codec is modelled at the decoded-message level. -/

/-- The polymorphic `cmtp2p.PublicKey` one-of: only the Ed25519 variant is
produced by this application; `empty` stands for an absent or non-Ed25519
sum, for which gogoproto `GetEd25519()` returns nil. -/
inductive ProtoPublicKeySum where
  | ed25519 (bz : Bytes)
  | empty
deriving DecidableEq, Repr

/-- Gogoproto `GetEd25519()`: the key bytes for the Ed25519 variant, nil
otherwise. -/
def ProtoPublicKeySum.getEd25519 : ProtoPublicKeySum → Bytes
  | .ed25519 bz => bz
  | .empty => []

/-- Decoded `vfsp2p.Transaction` message: signer, signature, hash, time,
declared length (`uint32`), body. -/
structure ProtoTransaction where
  signer : ProtoPublicKeySum
  signature : Bytes
  hash : Bytes
  time : Timestamp
  len : Nat
  body : Bytes
deriving DecidableEq, Repr

/-- Encoder `SignedTransaction.ToProto`: populates the hash when it is
empty, truncates the timestamp to whole seconds
(`time.Unix(p.Time.Unix(), 0)`), and sets `Len = uint32(len(p.Data))`. -/
def SignedTransaction.toProto (p : SignedTransaction) : ProtoTransaction :=
  let hash := if p.hash.length = 0 then computeHash p else p.hash
  { signer := .ed25519 p.signer
    signature := p.signature
    hash := hash
    time := { sec := p.time.sec, nsec := 0 }
    len := p.data.length % 4294967296
    body := p.data }

/-- Decoder `FromProto`: takes the Ed25519 bytes from the signer variant,
copies signature, size, time and body, and keeps a non-empty wire hash
as-is (the hash stays nil when the wire hash is empty). The Go function
errors only on a nil message pointer, which has no counterpart here. -/
def fromProto (pb : ProtoTransaction) : SignedTransaction :=
  { signer := pb.signer.getEd25519
    signature := pb.signature
    size := pb.len
    time := pb.time
    data := pb.body
    hash := if pb.hash.length ≠ 0 then pb.hash else [] }

/-- Composition `FromBytes(tx.Bytes())` at the message level: decode of the
canonical encoding, i.e. `FromProto ∘ ToProto` modulo the byte codec, which
is the identity on messages by the gogoproto round-trip guarantee. -/
def decodeEncode (p : SignedTransaction) : SignedTransaction :=
  fromProto p.toProto

/-- Post-parse step of `NewSignedTransactionFromBytes`: computes the hash
when the decoded transaction carries none. -/
def fillHash (stx : SignedTransaction) : SignedTransaction :=
  if stx.hash.length = 0 then { stx with hash := computeHash stx } else stx

/-! ### Stateless validation (`validateTx` / `CheckTx`)

Ed25519 signature verification (`Signer.VerifySignature(Data, Signature)`)
is an external cryptographic primitive; it is modelled as an oracle
parameter `verify pubkey msg sig`. Protobuf parsing of the raw bytes is
modelled by its outcome: every input byte string either fails to parse
(`none`) or parses to a unique decoded transaction (`some stx`), so
quantifying over `Option SignedTransaction` covers every input. -/

/-- Return codes of the application. -/
def CodeTypeOK : Nat := 0
/-- Return code for an empty transaction body. -/
def CodeTypeEmptyDataError : Nat := 1
/-- Return code for undecodable transaction bytes. -/
def CodeTypeInvalidFormatError : Nat := 2
/-- Return code for a failed signature verification. -/
def CodeTypeInvalidSignatureError : Nat := 3

/-- Signature check `SignedTransaction.Verify`, against the oracle. -/
def verifyTx (verify : Bytes → Bytes → Bytes → Bool)
    (p : SignedTransaction) : Bool :=
  verify p.signer p.data p.signature

/-- Validation `validateTx` on the decode outcome of the input bytes:
decode failure gives invalid-format; `stx.Size == 0 || len(stx.Data) == 0`
gives empty-data; a failed signature check gives invalid-signature;
otherwise OK. `CheckTx` returns exactly this code. -/
def validateTx (verify : Bytes → Bytes → Bytes → Bool) :
    Option SignedTransaction → Nat
  | none => CodeTypeInvalidFormatError
  | some stx =>
      if stx.size = 0 ∨ stx.data.length = 0 then CodeTypeEmptyDataError
      else if verifyTx verify stx = false then CodeTypeInvalidSignatureError
      else CodeTypeOK

/-! ### Per-signer Merkle roots map (`commitMerkleRoots`)

The Go `map[string][]byte` is modelled as an association list with
no duplicate keys; Go map iteration order is never observed by the code
(values are read by key and emitted in sorted key order). -/

/-- Roots map: uppercase-hex signer key to 32-byte Merkle root. -/
abbrev RootsMap := List (String × Bytes)

/-- Map lookup. -/
def lookupRoot : RootsMap → String → Option Bytes
  | [], _ => none
  | (k, v) :: rest, key => if key = k then some v else lookupRoot rest key

/-- Map store: replaces the binding in place when the key is present,
appends it otherwise (Go `m[k] = v`). -/
def insertRoot : RootsMap → String → Bytes → RootsMap
  | [], key, val => [(key, val)]
  | (k, v) :: rest, key, val =>
      if key = k then (k, val) :: rest else (k, v) :: insertRoot rest key val

/-- One iteration of the `commitMerkleRoots` loop: the leaf list is the
transaction hash, with the signer's existing root prepended when present,
and the signer's entry becomes the Merkle hash of that list. -/
def stepMerkle (roots : RootsMap) (payload : SignedTransaction) : RootsMap :=
  let pub := payload.publicKey
  let txs : List Bytes :=
    match lookupRoot roots pub with
    | some mr => [mr, payload.hash]
    | none => [payload.hash]
  insertRoot roots pub (hashFromByteSlices txs)

/-- The `commitMerkleRoots` loop over the staged transactions, in staging
order. -/
def commitMerkleRoots (roots : RootsMap) (stage : List SignedTransaction) :
    RootsMap :=
  stage.foldl stepMerkle roots

/-! ### Application state and app-hash (`State`, `crypto.go`) -/

/-- Database: an association list from byte keys to byte values, modelling
the embedded key-value store. -/
abbrev Db := List (Bytes × Bytes)

/-- Database read. -/
def dbGet : Db → Bytes → Option Bytes
  | [], _ => none
  | (k, v) :: rest, key => if key = k then some v else dbGet rest key

/-- Database existence check, `db.Has`. -/
def dbHas (db : Db) (key : Bytes) : Bool :=
  (dbGet db key).isSome

/-- Database write, `db.Set`: replaces in place or appends. -/
def dbSet : Db → Bytes → Bytes → Db
  | [], key, val => [(key, val)]
  | (k, v) :: rest, key, val =>
      if key = k then (k, val) :: rest else (k, v) :: dbSet rest key val

/-- Application `State`: the latest block height and total transaction
counter (Go `int64`, modelled as unbounded integers), the per-signer
Merkle roots, and the backing database handle. -/
structure State where
  numTransactions : Int
  height : Int
  merkleRoots : RootsMap
  db : Db
deriving DecidableEq, Repr

/-- Sorted key list of the roots map, Go `sort.Strings(keys)`: the keys in
ascending lexicographic order (insertion sort computes the same unique
sorted permutation on duplicate-free keys). -/
def sortedKeys (roots : RootsMap) : List String :=
  List.insertionSort (· ≤ ·) (roots.map Prod.fst)

/-- Value sequence of `State.MerkleRoots()`: the root values read back in
sorted key order. -/
def sortedRootValues (roots : RootsMap) : List Bytes :=
  (sortedKeys roots).filterMap (lookupRoot roots)

/-- App-hash `State.Hash()`: the Merkle hash of the deterministically
sorted root values. -/
def stateHash (s : State) : Bytes :=
  hashFromByteSlices (sortedRootValues s.merkleRoots)

/-- App-hash returned by `Info` (`LastBlockAppHash`). -/
def infoAppHash (s : State) : Bytes := stateHash s

/-- App-hash returned by `InitChain`. -/
def initChainAppHash (s : State) : Bytes := stateHash s

/-! ### Block lifecycle (`processFinalizeBlock`, `FinalizeBlock`, `Commit`)

As for `validateTx`, the per-transaction protobuf parse is modelled by its
outcome, so a `FinalizeBlock` request body is a list of decode outcomes in
delivery order. -/

/-- Per-transaction result (`abci.ExecTxResult`): code and data (the
transaction hash). -/
structure TxResult where
  code : Nat
  data : Bytes
deriving DecidableEq, Repr

/-- The staging loop of `processFinalizeBlock`, threading the state and the
stage through the request transactions in delivery order. A successfully
decoded transaction is staged (hash filled in), gets an OK result carrying
its hash, and increments `NumTransactions`. On a decode failure the Go code
builds the result from `payload.Hash` where `payload` is the nil pointer
returned by `NewSignedTransactionFromBytes`: that is a nil-pointer
dereference, modelled as `none` (a crash of the whole call). -/
def stageLoop (st : State) (stage : List SignedTransaction)
    (acc : List TxResult) :
    List (Option SignedTransaction) →
      Option (List TxResult × State × List SignedTransaction)
  | [] => some (acc.reverse, st, stage)
  | none :: _ => none
  | some decoded :: rest =>
      let payload := fillHash decoded
      stageLoop { st with numTransactions := st.numTransactions + 1 }
        (stage ++ [payload])
        ({ code := CodeTypeOK, data := payload.hash } :: acc) rest

/-- The whole of `processFinalizeBlock`: resets the stage, runs the staging
loop, then sets `Height` to the request height. -/
def processFinalizeBlock (st : State) (reqHeight : Int)
    (txs : List (Option SignedTransaction)) :
    Option (List TxResult × State × List SignedTransaction) :=
  (stageLoop st [] [] txs).map fun res =>
    (res.1, { res.2.1 with height := reqHeight }, res.2.2)

/-- The outcome of `FinalizeBlock`: transaction results, the new app-hash,
the updated state, and the stage awaiting `Commit`. It runs
`processFinalizeBlock`, folds the staged hashes into the Merkle roots map,
and reports `state.Hash()`. -/
def finalizeBlock (st : State) (reqHeight : Int)
    (txs : List (Option SignedTransaction)) :
    Option (List TxResult × Bytes × State × List SignedTransaction) :=
  (processFinalizeBlock st reqHeight txs).map fun res =>
    let st' := res.2.1
    let st'' := { st' with
                  merkleRoots := commitMerkleRoots st'.merkleRoots res.2.2 }
    (res.1, stateHash st'', st'', res.2.2)

/-! ### Persistence (`Commit`, `saveState`, key layout) -/

/-- The well-known state key, `"vfsState"`. -/
def stateKeyBytes : Bytes := strBytes "vfsState"

/-- Transaction key prefix `"vfs:"` (`prefixKey`). -/
def prefixKey (key : Bytes) : Bytes := strBytes "vfs:" ++ key

/-- Modelled from the spec: the height-index key prefix `"vfs:height:"`.
The constant `vfsPrefixKeyByHeight` lives in the state file that is not
among the provided sources; the spec fixes it to `"vfs:height:"`. -/
def vfsPrefixKeyByHeight : Bytes := strBytes "vfs:height:"

/-- Modelled from the spec: the signer-index key prefix `"vfs:pubkey:"`.
The constant `vfsPrefixKeyByPubKey` lives in the state file that is not
among the provided sources; the spec fixes it to `"vfs:pubkey:"`. -/
def vfsPrefixKeyByPubKey : Bytes := strBytes "vfs:pubkey:"

/-- Key builder `prefixKeyWith`. -/
def prefixKeyWith (key prefix_ : Bytes) : Bytes := prefix_ ++ key

/-- Go `encoding/json` marshalling of `State`
(`json.Marshal(state)`, used by `saveState`), field by field.
The struct has `NumTransactions int64` tagged `json:"num_transactions"`,
`Height int64` tagged `json:"height"`, and
`merkleRoots map[string][]byte` tagged `json:"merkle_roots"`.
`merkleRoots` is an unexported (lowercase) field, and Go `encoding/json`
silently skips unexported fields regardless of their tag, so the
serialized object carries only the two integer fields. -/
def marshalState (s : State) : List (String × Int) :=
  [("num_transactions", s.numTransactions), ("height", s.height)]

/-- Field lookup in a serialized state object. -/
def jsonField (fields : List (String × Int)) (key : String) : Option Int :=
  (fields.find? (fun f => f.1 = key)).map Prod.snd

/-- Go `json.Unmarshal` of a serialized state object into `State`
(`loadState`): tagged exported fields are populated from the object,
absent fields and the unexported `merkleRoots` field keep their zero
values. -/
def unmarshalState (fields : List (String × Int)) (db : Db) : State :=
  { numTransactions := (jsonField fields "num_transactions").getD 0
    height := (jsonField fields "height").getD 0
    merkleRoots := []
    db := db }

/-- Serialized state bytes actually written under `"vfsState"`; the JSON
object text is abstracted by the injective field-list encoding
`jsonBytes`, a parameter of the commit model. -/
def saveStateBytes (jsonBytes : List (String × Int) → Bytes) (s : State) :
    Bytes :=
  jsonBytes (marshalState s)

/-- The transaction-writing loop of `Commit`. For each staged transaction
in order: if the key `vfs:‖hash` already exists the loop stops with the
fatal duplicate error (the database keeps the writes made so far, as the
Go code mutates it in place); otherwise the sealed transaction bytes are
written under that key. `sealTx` abstracts
`Encrypt(secret, payload.Bytes())` (AES-GCM with a random nonce over the
canonical proto encoding), whose output value no claim depends on. -/
def commitTxLoop (sealTx : SignedTransaction → Bytes) (db : Db) :
    List SignedTransaction → Option String × Db
  | [] => (none, db)
  | payload :: rest =>
      if dbHas db (prefixKey payload.hash) then
        (some "transaction hash already exists", db)
      else
        commitTxLoop sealTx (dbSet db (prefixKey payload.hash) (sealTx payload)) rest

/-- Read-modify-write of a JSON hash-list index entry
(`addTransactionByHeight` / `addTransactionByPubKey`): decode the existing
array when the entry is non-empty, append the hash, re-encode and store.
`encList`/`decList` abstract the JSON array codec for hash lists. -/
def appendIndex (encList : List Bytes → Bytes) (decList : Bytes → List Bytes)
    (db : Db) (key : Bytes) (h : Bytes) : Db :=
  let txes : List Bytes :=
    match dbGet db key with
    | some data => if data.length > 0 then decList data else []
    | none => []
  dbSet db key (encList (txes ++ [h]))

/-- Go `strconv.FormatInt(h, 10)` as bytes. -/
def heightKeyBytes (h : Int) : Bytes :=
  prefixKeyWith (strBytes (toString h)) vfsPrefixKeyByHeight

/-- Index writes of `commitTransactionHashes`: for each staged transaction,
append its hash to the height index and to the signer index. -/
def commitTransactionHashes (encList : List Bytes → Bytes)
    (decList : Bytes → List Bytes) (height : Int) (db : Db)
    (stage : List SignedTransaction) : Db :=
  stage.foldl
    (fun db payload =>
      let db1 := appendIndex encList decList db (heightKeyBytes height) payload.hash
      appendIndex encList decList db1
        (prefixKeyWith payload.signer vfsPrefixKeyByPubKey) payload.hash)
    db

/-- `Commit` (canonical encrypted variant): write every staged transaction
(stopping fatally on a duplicate hash key), then write the index entries,
then save the state under `"vfsState"` and clear the stage. Returns the
error outcome together with the post-call state, stage and database. On
the error path neither the index writes nor the state save happen and the
stage is kept. -/
def commit (sealTx : SignedTransaction → Bytes)
    (encList : List Bytes → Bytes) (decList : Bytes → List Bytes)
    (jsonBytes : List (String × Int) → Bytes)
    (st : State) (stage : List SignedTransaction) :
    Option String × State × List SignedTransaction :=
  match commitTxLoop sealTx st.db stage with
  | (some e, db1) => (some e, { st with db := db1 }, stage)
  | (none, db1) =>
      let db2 := commitTransactionHashes encList decList st.height db1 stage
      let db3 := dbSet db2 stateKeyBytes (saveStateBytes jsonBytes st)
      (none, { st with db := db3 }, [])

/-! ### Helper lemmas -/

/-- Looking up the key just stored finds the stored value. -/
theorem lookupRoot_insertRoot_self (m : RootsMap) (k : String) (v : Bytes) :
    lookupRoot (insertRoot m k v) k = some v := by
  induction m with
  | nil => simp [insertRoot, lookupRoot]
  | cons a rest ih =>
      by_cases h : k = a.1
      · simp [insertRoot, lookupRoot, h]
      · simp [insertRoot, lookupRoot, h, ih]

/-- A key is among the map keys exactly when its lookup succeeds. -/
theorem mem_keys_iff_lookup (m : RootsMap) (k : String) :
    k ∈ m.map Prod.fst ↔ (lookupRoot m k).isSome := by
  induction m with
  | nil => simp [lookupRoot]
  | cons a rest ih =>
      by_cases h : k = a.1
      · simp [lookupRoot, h]
      · simp [lookupRoot, h, ih]

/-- Database lookup after a write. -/
theorem dbGet_dbSet (db : Db) (k key v : Bytes) :
    dbGet (dbSet db k v) key = if key = k then some v else dbGet db key := by
  induction db with
  | nil => simp [dbSet, dbGet]
  | cons a rest ih =>
      by_cases h : k = a.1
      · subst h
        by_cases hk : key = a.1 <;> simp [dbSet, dbGet, hk]
      · by_cases hk : key = a.1
        · subst hk
          simp [dbSet, dbGet, Ne.symm h, h]
        · simp [dbSet, dbGet, h, hk, ih]

/-- Transaction keys are disjoint from the state key. -/
theorem prefixKey_ne_stateKey (h : Bytes) : prefixKey h ≠ stateKeyBytes := by
  intro heq
  simp [prefixKey, stateKeyBytes, strBytes] at heq

/-- Characterization of the staging loop on a fully decodable request:
every transaction is staged in delivery order with its hash filled in, each
gets an OK result carrying that hash, and the transaction counter advances
by the number of staged transactions. -/
theorem stageLoop_somes (ds : List SignedTransaction) :
    ∀ (st : State) (stage : List SignedTransaction) (acc : List TxResult),
    stageLoop st stage acc (ds.map some) =
      some (acc.reverse ++
              ds.map (fun d => { code := CodeTypeOK, data := (fillHash d).hash }),
            { st with numTransactions := st.numTransactions + ds.length },
            stage ++ ds.map fillHash) := by
  induction ds with
  | nil => intro st stage acc; simp [stageLoop]
  | cons d rest ih =>
      intro st stage acc
      simp only [List.map_cons, stageLoop, ih]
      simp [List.append_assoc]
      omega

/-- The staging loop never changes the height, the Merkle roots or the
database, and never decreases the transaction counter. -/
theorem stageLoop_state_inv (txs : List (Option SignedTransaction)) :
    ∀ (st : State) (stage : List SignedTransaction) (acc : List TxResult)
      (r : List TxResult × State × List SignedTransaction),
    stageLoop st stage acc txs = some r →
      st.numTransactions ≤ r.2.1.numTransactions ∧
      r.2.1.height = st.height ∧
      r.2.1.merkleRoots = st.merkleRoots ∧
      r.2.1.db = st.db := by
  induction txs with
  | nil =>
      intro st stage acc r hr
      simp [stageLoop] at hr
      simp [← hr]
  | cons t rest ih =>
      intro st stage acc r hr
      match t with
      | none => simp [stageLoop] at hr
      | some d =>
          simp only [stageLoop] at hr
          have h := ih _ _ _ _ hr
          refine ⟨?_, h.2.1, h.2.2.1, h.2.2.2⟩
          have := h.1
          simp at this
          omega

/-! ### Claim C2 -/

/-- Claim C2: the transaction hash equals
`SHA256(signer ‖ body ‖ be_u64(unix_seconds(time)))`, and it depends on the
timestamp only through its whole-second value, so transactions differing
only in sub-second components hash identically. -/
theorem claimC2 :
    (∀ p : SignedTransaction,
      computeHash p = sha256 (p.signer ++ p.data ++ be64 (uint64OfInt p.time.sec))) ∧
    (∀ p q : SignedTransaction,
      p.signer = q.signer → p.data = q.data → p.time.sec = q.time.sec →
      computeHash p = computeHash q) := by
  constructor
  · intro p; rfl
  · intro p q hs hd ht
    simp [computeHash, hs, hd, ht]

/-- Witness for C2 at two concrete transactions equal except for the
nanosecond component of the timestamp. -/
theorem claimC2_witness :
    computeHash { signer := [1], hash := [], signature := [2], size := 1,
                  time := { sec := 5, nsec := 0 }, data := [7] } =
    computeHash { signer := [1], hash := [], signature := [2], size := 1,
                  time := { sec := 5, nsec := 123456789 }, data := [7] } :=
  claimC2.2 _ _ rfl rfl rfl

/-! ### Claim C3 -/

/-- Claim C3: during `FinalizeBlock` the Merkle roots map is updated by a
left fold over the staged transactions in delivery order; each step hashes
`[old_root, tx.hash]` when the signer already has a root and `[tx.hash]`
otherwise, with the CometBFT RFC-6962-style tree (leaf prefix `0x00`,
inner prefix `0x01`). -/
theorem claimC3 :
    (∀ (roots : RootsMap) (stage : List SignedTransaction),
      commitMerkleRoots roots stage = stage.foldl stepMerkle roots) ∧
    (∀ (roots : RootsMap) (payload : SignedTransaction),
      lookupRoot (stepMerkle roots payload) payload.publicKey =
        some (match lookupRoot roots payload.publicKey with
              | some mr => hashFromByteSlices [mr, payload.hash]
              | none => hashFromByteSlices [payload.hash])) ∧
    (∀ h : Bytes, hashFromByteSlices [h] = leafHash h) ∧
    (∀ a b : Bytes,
      hashFromByteSlices [a, b] = innerHash (leafHash a) (leafHash b)) ∧
    (∀ (st : State) (h : Int) (ds : List SignedTransaction),
      (finalizeBlock st h (ds.map some)).map
          (fun r => (r.2.2.1.merkleRoots, r.2.2.2)) =
        some (commitMerkleRoots st.merkleRoots (ds.map fillHash),
              ds.map fillHash)) := by
  refine ⟨fun _ _ => rfl, ?_, ?_, ?_, ?_⟩
  · intro roots payload
    unfold stepMerkle
    cases hmr : lookupRoot roots payload.publicKey <;>
      simp [hmr, lookupRoot_insertRoot_self]
  · intro h
    simp [hashFromByteSlices, hashAux]
  · intro a b
    simp [hashFromByteSlices, hashAux, getSplitPoint, bitLen, bitLenAux]
  · intro st h ds
    simp [finalizeBlock, processFinalizeBlock, stageLoop_somes]

/-! ### Claim C5 -/

/-- The state of an empty store: zero height, zero counter, empty roots
map. -/
def emptyState : State :=
  { numTransactions := 0, height := 0, merkleRoots := [], db := [] }

/-- Counterexample for C5: on the empty store the app-hash returned by
`InitChain` is not 32 zero bytes (it is the RFC-6962 empty-tree hash,
the SHA-256 digest of the empty byte string). -/
theorem claimC5_counterexample :
    ¬ (initChainAppHash emptyState = List.replicate 32 0) := by decide

/-- Claim C5 as amended: on a state with an empty Merkle-roots map the
app-hash returned by `InitChain` (and reported by `Info`) is the Merkle
root of the empty list, namely `SHA256` of the empty byte string
`e3b0c442...b855`, not 32 zero bytes. -/
theorem claimC5 :
    (∀ s : State, s.merkleRoots = [] →
      initChainAppHash s = sha256 [] ∧ infoAppHash s = sha256 []) ∧
    sha256 [] =
      [0xe3, 0xb0, 0xc4, 0x42, 0x98, 0xfc, 0x1c, 0x14, 0x9a, 0xfb, 0xf4,
       0xc8, 0x99, 0x6f, 0xb9, 0x24, 0x27, 0xae, 0x41, 0xe4, 0x64, 0x9b,
       0x93, 0x4c, 0xa4, 0x95, 0x99, 0x1b, 0x78, 0x52, 0xb8, 0x55] := by
  constructor
  · intro s hs
    have h0 : sortedRootValues s.merkleRoots = [] := by
      simp [hs, sortedRootValues, sortedKeys]
    constructor <;>
      simp only [initChainAppHash, infoAppHash, stateHash, h0,
        hashFromByteSlices, hashAux]
  · decide

/-- Witness for C5 at the empty store. -/
theorem claimC5_witness :
    initChainAppHash emptyState = sha256 [] ∧
    infoAppHash emptyState = sha256 [] :=
  claimC5.1 emptyState rfl

/-! ### Claim C7 -/

/-- Claim C7 (evaluating the code at the failing input): a `FinalizeBlock`
request containing an undecodable transaction makes the whole call crash
(`none`, the nil-pointer dereference of `payload.Hash` on the error
branch) instead of emitting an invalid-format result and continuing —
both when the bad transaction is the only one and when a decodable
transaction precedes it. -/
theorem claimC7_failing :
    finalizeBlock emptyState 1 [none] = none ∧
    finalizeBlock emptyState 1
      [some { signer := [1], hash := [3], signature := [2], size := 1,
              time := { sec := 0, nsec := 0 }, data := [7] },
       none] = none := by
  constructor <;> rfl

/-! ### Claim C1 -/

/-- Counterexample for C1: a decoded transaction whose declared length
field is zero but whose body is non-empty, under a verification oracle
that accepts the signature (standing for any input whose Ed25519 signature
genuinely verifies). The claim predicts code OK (body non-empty, signature
verifies); `validateTx` returns empty-data because of the
`stx.Size == 0` disjunct. -/
theorem claimC1_counterexample :
    ¬ (validateTx (fun _ _ _ => true)
          (some { signer := [1], hash := [], signature := [2], size := 0,
                  time := { sec := 0, nsec := 0 }, data := [120] }) =
          CodeTypeOK ↔
        ((fun (_ _ _ : Bytes) => true) [1] [120] [2] = true ∧
          ([120] : Bytes).length ≠ 0)) := by decide

/-- Claim C1 as amended: for every verification oracle and every decode
outcome, `CheckTx`'s code is OK exactly when the bytes decode, the
signature verifies over the raw body, the body is non-empty AND the
declared length field is non-zero; it is invalid-format when decoding
fails, empty-data when the body is empty or the declared length is zero,
and invalid-signature when the transaction decodes with non-empty body and
non-zero declared length but the signature fails. The model is a total
function, so no input throws. -/
theorem claimC1 (verify : Bytes → Bytes → Bytes → Bool)
    (res : Option SignedTransaction) :
    (validateTx verify res = CodeTypeOK ↔
      ∃ stx, res = some stx ∧ verifyTx verify stx = true ∧
        stx.data.length ≠ 0 ∧ stx.size ≠ 0) ∧
    (res = none → validateTx verify res = CodeTypeInvalidFormatError) ∧
    (∀ stx, res = some stx → stx.size = 0 ∨ stx.data.length = 0 →
      validateTx verify res = CodeTypeEmptyDataError) ∧
    (∀ stx, res = some stx → stx.size ≠ 0 → stx.data.length ≠ 0 →
      verifyTx verify stx = false →
      validateTx verify res = CodeTypeInvalidSignatureError) := by
  refine ⟨?_, ?_, ?_, ?_⟩
  · cases res with
    | none => simp [validateTx, CodeTypeInvalidFormatError, CodeTypeOK]
    | some stx =>
        simp only [validateTx]
        split_ifs with hz hv
        · simp only [CodeTypeEmptyDataError, CodeTypeOK]
          constructor
          · intro h; omega
          · rintro ⟨stx', heq, -, hd', hs'⟩
            injection heq with heq
            subst heq
            omega
        · simp only [CodeTypeInvalidSignatureError, CodeTypeOK]
          constructor
          · intro h; omega
          · rintro ⟨stx', heq, hv', -, -⟩
            injection heq with heq
            subst heq
            simp [hv] at hv'
        · refine ⟨fun _ => ?_, fun _ => rfl⟩
          push_neg at hz
          have hvt : verifyTx verify stx = true := by
            cases hvb : verifyTx verify stx with
            | false => exact absurd hvb hv
            | true => rfl
          exact ⟨stx, rfl, hvt, hz.2, hz.1⟩
  · rintro rfl; rfl
  · rintro stx rfl hz
    simp only [validateTx]
    rw [if_pos hz]
  · rintro stx rfl hs hd hv
    simp only [validateTx]
    rw [if_neg (by omega), if_pos hv]

/-- Witness for C1: concrete evaluations through the amended theorem — a
decode failure yields invalid-format, a decoded empty body yields
empty-data, and a rejected signature yields invalid-signature. -/
theorem claimC1_witness :
    validateTx (fun _ _ _ => false) none = CodeTypeInvalidFormatError ∧
    validateTx (fun _ _ _ => true)
        (some { signer := [1], hash := [], signature := [2], size := 0,
                time := { sec := 0, nsec := 0 }, data := [] }) =
      CodeTypeEmptyDataError ∧
    validateTx (fun _ _ _ => false)
        (some { signer := [1], hash := [], signature := [2], size := 1,
                time := { sec := 0, nsec := 0 }, data := [7] }) =
      CodeTypeInvalidSignatureError := by
  refine ⟨(claimC1 (fun _ _ _ => false) none).2.1 rfl, ?_, ?_⟩
  · exact (claimC1 (fun _ _ _ => true) _).2.2.1 _ rfl (Or.inl rfl)
  · exact (claimC1 (fun _ _ _ => false) _).2.2.2 _ rfl
      (by decide) (by decide) rfl

/-! ### Claim C6 -/

/-- Base record of the C6 counterexample transaction (hash left empty so
the populated hash can be derived from it). -/
def txC6base : SignedTransaction :=
  { signer := [1], hash := [], signature := [2], size := 1,
    time := { sec := 0, nsec := 1 }, data := [7] }

/-- The C6 counterexample transaction: matching declared length, non-empty
body, reproducible hash — but a timestamp with a non-zero sub-second
component. -/
def txC6 : SignedTransaction := { txC6base with hash := computeHash txC6base }

/-- Counterexample for C6: `txC6` satisfies the validity invariants that
are independent of the signature oracle (`len == length(body) > 0`, hash
reproducible from signer, body and time) and verifies under an accepting
oracle, yet decoding its canonical encoding does not return an equal
record: the encoder truncates the timestamp to whole seconds. -/
theorem claimC6_counterexample :
    txC6.size = txC6.data.length ∧ 0 < txC6.data.length ∧
    txC6.hash = computeHash txC6 ∧
    verifyTx (fun _ _ _ => true) txC6 = true ∧
    decodeEncode txC6 ≠ txC6 := by
  refine ⟨rfl, by decide, by decide, rfl, ?_⟩
  intro h
  have := congrArg (fun t => t.time.nsec) h
  simp [decodeEncode, fromProto, SignedTransaction.toProto, txC6,
    txC6base] at this

/-- Claim C6 as amended: decoding the canonical encoding of a signed
transaction returns an equal record — equal hash field included — provided
the declared length matches the body length (and fits in 32 bits), the
timestamp is second-aligned, and the hash field is populated. -/
theorem claimC6 (p : SignedTransaction)
    (hsize : p.size = p.data.length) (hfit : p.data.length < 4294967296)
    (hnsec : p.time.nsec = 0) (hhash : p.hash ≠ []) :
    decodeEncode p = p := by
  have hlen : p.hash.length ≠ 0 := by
    cases hp : p.hash with
    | nil => exact absurd hp hhash
    | cons a l => simp [hp]
  unfold decodeEncode fromProto SignedTransaction.toProto
  simp [hlen, ProtoPublicKeySum.getEd25519]
  have hmod : p.data.length % 4294967296 = p.size := by omega
  have htime : ({ sec := p.time.sec, nsec := 0 } : Timestamp) = p.time := by
    rw [← hnsec]
  rw [hmod, htime]

/-- Witness for C6 at a concrete second-aligned transaction. -/
theorem claimC6_witness :
    decodeEncode { signer := [1], hash := [3], signature := [2], size := 1,
                   time := { sec := 5, nsec := 0 }, data := [7] } =
      { signer := [1], hash := [3], signature := [2], size := 1,
        time := { sec := 5, nsec := 0 }, data := [7] } :=
  claimC6 _ rfl (by decide) rfl (by decide)

/-! ### Claim C4 -/

/-- Claim C4: the app-hash returned to consensus by `Info`, `InitChain`
and `FinalizeBlock` is the Merkle hash of the per-signer root values taken
in ascending lexicographic order of their uppercase-hex signer keys;
consequently any two states whose roots maps contain the same bindings —
in any order — yield identical app-hashes. -/
theorem claimC4 :
    (∀ s : State,
      stateHash s = hashFromByteSlices (sortedRootValues s.merkleRoots) ∧
      infoAppHash s = stateHash s ∧ initChainAppHash s = stateHash s) ∧
    (∀ (st : State) (h : Int) (txs : List (Option SignedTransaction))
        (r : List TxResult × Bytes × State × List SignedTransaction),
      finalizeBlock st h txs = some r → r.2.1 = stateHash r.2.2.1) ∧
    (∀ s1 s2 : State,
      (s1.merkleRoots.map Prod.fst).Nodup →
      (s2.merkleRoots.map Prod.fst).Nodup →
      (∀ k, lookupRoot s1.merkleRoots k = lookupRoot s2.merkleRoots k) →
      stateHash s1 = stateHash s2) := by
  refine ⟨fun s => ⟨rfl, rfl, rfl⟩, ?_, ?_⟩
  · intro st h txs r hr
    simp only [finalizeBlock, processFinalizeBlock, Option.map_map] at hr
    cases hsl : stageLoop st [] [] txs with
    | none => rw [hsl] at hr; simp at hr
    | some v =>
        rw [hsl] at hr
        simp at hr
        rw [← hr]
  · intro s1 s2 h1 h2 hlook
    have hfun : lookupRoot s1.merkleRoots = lookupRoot s2.merkleRoots :=
      funext hlook
    have hmem : ∀ k, k ∈ s1.merkleRoots.map Prod.fst ↔
        k ∈ s2.merkleRoots.map Prod.fst := by
      intro k
      rw [mem_keys_iff_lookup, mem_keys_iff_lookup, hfun]
    have hperm : List.Perm (s1.merkleRoots.map Prod.fst)
        (s2.merkleRoots.map Prod.fst) :=
      (List.perm_ext_iff_of_nodup h1 h2).2 hmem
    have hkeys : sortedKeys s1.merkleRoots = sortedKeys s2.merkleRoots := by
      apply List.eq_of_perm_of_sorted (r := (· ≤ · : String → String → Prop))
        ((List.perm_insertionSort _ _).trans
          (hperm.trans (List.perm_insertionSort _ _).symm))
      · exact List.sorted_insertionSort _ _
      · exact List.sorted_insertionSort _ _
    unfold stateHash sortedRootValues
    rw [hkeys, hfun]

/-- Witness for C4: two concrete states whose roots maps hold the same two
bindings in opposite insertion order hash identically. -/
theorem claimC4_witness :
    stateHash { numTransactions := 0, height := 0, db := [],
                merkleRoots := [("AA", [1]), ("BB", [2])] } =
    stateHash { numTransactions := 0, height := 0, db := [],
                merkleRoots := [("BB", [2]), ("AA", [1])] } := by
  apply claimC4.2.2 _ _ (by decide) (by decide)
  intro k
  by_cases hA : k = "AA" <;> by_cases hB : k = "BB" <;>
    simp [lookupRoot, hA, hB]

/-! ### Claim C8 -/

/-- If the stage holds a transaction whose hash key is already in the
database, the transaction-writing loop of `Commit` stops with the fatal
error and the `"vfsState"` entry of the database is untouched. -/
theorem commitTxLoop_dup (sealTx : SignedTransaction → Bytes)
    (stage : List SignedTransaction) :
    ∀ db : Db,
    (∃ p, p ∈ stage ∧ dbHas db (prefixKey p.hash) = true) →
      (commitTxLoop sealTx db stage).1.isSome = true ∧
      dbGet (commitTxLoop sealTx db stage).2 stateKeyBytes =
        dbGet db stateKeyBytes := by
  induction stage with
  | nil =>
      rintro db ⟨p, hp, -⟩
      cases hp
  | cons q rest ih =>
      rintro db ⟨p, hp, hdup⟩
      by_cases hq : dbHas db (prefixKey q.hash) = true
      · simp [commitTxLoop, hq]
      · have hpr : p ∈ rest := by
          rcases List.mem_cons.1 hp with h | h
          · subst h; exact absurd hdup hq
          · exact h
        have hmono : dbHas (dbSet db (prefixKey q.hash) (sealTx q))
            (prefixKey p.hash) = true := by
          unfold dbHas at hdup ⊢
          rw [dbGet_dbSet]
          by_cases he : prefixKey p.hash = prefixKey q.hash
          · simp [he]
          · simpa [he] using hdup
        have hrec := ih (dbSet db (prefixKey q.hash) (sealTx q))
          ⟨p, hpr, hmono⟩
        simp only [commitTxLoop, hq, if_false, Bool.false_eq_true]
        refine ⟨hrec.1, ?_⟩
        rw [hrec.2, dbGet_dbSet,
          if_neg (Ne.symm (prefixKey_ne_stateKey q.hash))]

/-- Concrete `Commit` of C8's counterexample: a two-transaction stage whose
second transaction's hash key is already in the database. -/
def c8commit : Option String × State × List SignedTransaction :=
  commit (fun p => p.hash) (fun l => l.flatten) (fun _ => []) (fun _ => [])
    { numTransactions := 0, height := 1, merkleRoots := [],
      db := [(prefixKey [2], [9])] }
    [{ signer := [4], hash := [1], signature := [2], size := 1,
       time := { sec := 0, nsec := 0 }, data := [7] },
     { signer := [4], hash := [2], signature := [2], size := 1,
       time := { sec := 0, nsec := 0 }, data := [7] }]

/-- Counterexample for C8: that `Commit` call fails with the duplicate
error, yet the persisted store is not unchanged — the first staged
transaction's key has already been written when the duplicate is hit. -/
theorem claimC8_counterexample :
    c8commit.1.isSome = true ∧
    c8commit.2.1.db ≠ [(prefixKey [2], [9])] ∧
    dbHas c8commit.2.1.db (prefixKey [1]) = true := by decide

/-- Claim C8 as amended: a `Commit` whose stage holds a transaction whose
hash key already exists returns the fatal duplicate error, the `"vfsState"`
entry is not updated (no state is saved and no index entry is written by
the failing call), and the stage is kept; however the transactions staged
before the first duplicate have already been written to the store. -/
theorem claimC8 (sealTx : SignedTransaction → Bytes)
    (encList : List Bytes → Bytes) (decList : Bytes → List Bytes)
    (jsonBytes : List (String × Int) → Bytes)
    (st : State) (stage : List SignedTransaction)
    (hdup : ∃ p, p ∈ stage ∧ dbHas st.db (prefixKey p.hash) = true) :
    (commit sealTx encList decList jsonBytes st stage).1.isSome = true ∧
    dbGet (commit sealTx encList decList jsonBytes st stage).2.1.db
        stateKeyBytes = dbGet st.db stateKeyBytes ∧
    (commit sealTx encList decList jsonBytes st stage).2.2 = stage := by
  have h := commitTxLoop_dup sealTx stage st.db hdup
  unfold commit
  cases hc : commitTxLoop sealTx st.db stage with
  | mk o db1 =>
      rw [hc] at h
      cases o with
      | none => simp at h
      | some e => exact ⟨rfl, h.2, rfl⟩

/-- Witness for C8: committing the same transaction a second time (its
hash key already present) fails and leaves the database untouched. -/
theorem claimC8_witness :
    (commit (fun p => p.hash) (fun l => l.flatten) (fun _ => [])
        (fun _ => [])
        { numTransactions := 0, height := 1, merkleRoots := [],
          db := [(prefixKey [2], [9])] }
        [{ signer := [4], hash := [2], signature := [2], size := 1,
           time := { sec := 0, nsec := 0 }, data := [7] }]).1.isSome =
      true ∧
    dbGet (commit (fun p => p.hash) (fun l => l.flatten) (fun _ => [])
        (fun _ => [])
        { numTransactions := 0, height := 1, merkleRoots := [],
          db := [(prefixKey [2], [9])] }
        [{ signer := [4], hash := [2], signature := [2], size := 1,
           time := { sec := 0, nsec := 0 }, data := [7] }]).2.1.db
        stateKeyBytes =
      dbGet [(prefixKey [2], [9])] stateKeyBytes ∧
    (commit (fun p => p.hash) (fun l => l.flatten) (fun _ => [])
        (fun _ => [])
        { numTransactions := 0, height := 1, merkleRoots := [],
          db := [(prefixKey [2], [9])] }
        [{ signer := [4], hash := [2], signature := [2], size := 1,
           time := { sec := 0, nsec := 0 }, data := [7] }]).2.2 =
      [{ signer := [4], hash := [2], signature := [2], size := 1,
         time := { sec := 0, nsec := 0 }, data := [7] }] :=
  claimC8 _ _ _ _ _ _ ⟨_, List.mem_singleton.2 rfl, by decide⟩

/-! ### Claim C9 -/

/-- Counterexample for C9: from a state at height 5, a `FinalizeBlock`
request at height 3 drops the state height to 3, so `state.height` is not
monotonically non-decreasing under arbitrary request contents. -/
theorem claimC9_counterexample :
    (finalizeBlock
        { numTransactions := 0, height := 5, merkleRoots := [], db := [] }
        3 []).map (fun r => r.2.2.1.height) = some 3 ∧
    ((3 : Int) < 5) := by
  constructor
  · rfl
  · decide

/-- Claim C9 as amended: `state.num_transactions` never decreases — it is
non-decreasing across every `FinalizeBlock` and unchanged by `Commit` —
while `state.height` is set by each `FinalizeBlock` to the request height
(and unchanged by `Commit`), so it is non-decreasing exactly when the
delivered request heights are. -/
theorem claimC9 :
    (∀ (st : State) (h : Int) (txs : List (Option SignedTransaction))
        (r : List TxResult × Bytes × State × List SignedTransaction),
      finalizeBlock st h txs = some r →
        st.numTransactions ≤ r.2.2.1.numTransactions ∧
        r.2.2.1.height = h) ∧
    (∀ (sealTx : SignedTransaction → Bytes)
        (encList : List Bytes → Bytes) (decList : Bytes → List Bytes)
        (jsonBytes : List (String × Int) → Bytes)
        (st : State) (stage : List SignedTransaction),
      (commit sealTx encList decList jsonBytes st stage).2.1.numTransactions
          = st.numTransactions ∧
      (commit sealTx encList decList jsonBytes st stage).2.1.height
          = st.height) := by
  constructor
  · intro st h txs r hr
    simp only [finalizeBlock, processFinalizeBlock, Option.map_map] at hr
    cases hsl : stageLoop st [] [] txs with
    | none => rw [hsl] at hr; simp at hr
    | some v =>
        rw [hsl] at hr
        simp at hr
        have hinv := stageLoop_state_inv txs st [] [] v hsl
        rw [← hr]
        exact ⟨hinv.1, rfl⟩
  · intro sealTx encList decList jsonBytes st stage
    unfold commit
    cases hc : commitTxLoop sealTx st.db stage with
    | mk o db1 =>
        cases o with
        | none => exact ⟨rfl, rfl⟩
        | some e => exact ⟨rfl, rfl⟩

/-- Witness for C9 on an empty block at height 1 from the empty state. -/
theorem claimC9_witness :
    ({ numTransactions := 0, height := 0, merkleRoots := [], db := [] } :
        State).numTransactions ≤
      ({ numTransactions := 0, height := 1, merkleRoots := [], db := [] } :
        State).numTransactions ∧
    ({ numTransactions := 0, height := 1, merkleRoots := [], db := [] } :
        State).height = 1 :=
  claimC9.1
    { numTransactions := 0, height := 0, merkleRoots := [], db := [] } 1 []
    ([], sha256 [],
      { numTransactions := 0, height := 1, merkleRoots := [], db := [] }, [])
    rfl

/-! ### Claim C10 -/

/-- A concrete state with a non-empty roots map, C10's failing input. -/
def c10st : State :=
  { numTransactions := 1, height := 1, merkleRoots := [("AA", [1])],
    db := [] }

/-- Claim C10 (evaluating the code at the failing input): the serialized
state object produced by `json.Marshal` carries only `num_transactions`
and `height` — the unexported `merkleRoots` field is skipped by Go
`encoding/json` despite its `json:"merkle_roots"` tag — so reloading the
persisted state restores the height and counter but always an empty
Merkle-roots map, contradicting the claimed round-trip of `merkle_roots`. -/
theorem claimC10_failing :
    marshalState c10st = [("num_transactions", 1), ("height", 1)] ∧
    (unmarshalState (marshalState c10st) c10st.db).height = c10st.height ∧
    (unmarshalState (marshalState c10st) c10st.db).numTransactions =
      c10st.numTransactions ∧
    (unmarshalState (marshalState c10st) c10st.db).merkleRoots = [] ∧
    c10st.merkleRoots ≠ [] ∧
    (∀ (s : State) (db : Db),
      (unmarshalState (marshalState s) db).merkleRoots = []) := by
  refine ⟨rfl, by decide, by decide, rfl, by decide, fun s db => rfl⟩

end VStore
